import Mathlib

/-!
Verification of the account repository core of a small CRUD service:
the in-memory account store (`src/repositories/memory.py`,
`InMemoryAccountRepository`) and the repository factory
(`src/dependencies/repository.py`, `RepositoryFactory`).

Modelling conventions:
* Timestamps (`datetime.now(timezone.utc)`) are modelled as a logical UTC
  clock of type `Nat`; each operation that reads the clock takes the current
  instant `now` as an explicit argument.
* `balance` is a `float` in the source, but the store never computes with
  it — it is only stored, copied and compared — so it is modelled by the
  exact numeric type `Rat`.
* The Python `dict` keyed by account id is modelled as the insertion-ordered
  list of its values (Python dicts preserve insertion order; assigning to an
  existing key keeps its position, otherwise appends).  `dictInsert` is the
  translation of `d[k] = v`.
* Each repository method is translated as a state-passing function
  `args → Store → result × Store`, the read-only methods returning the
  store unchanged.
-/

namespace AccountRepo

/-- The internal stored record: the `AccountData` TypedDict of
`src/repositories/memory.py` (fields `id`, `name`, `description`, `balance`,
`active`, `created_at`, `updated_at`). -/
structure AccountData where
  id : Nat
  name : String
  description : Option String
  balance : Rat
  active : Bool
  created_at : Nat
  updated_at : Nat
deriving DecidableEq, Repr

/-- The `Account` pydantic model (`src/models/account.py`): the four mutable
fields carried by API operations.  Schema-level validation (name shape,
balance ≥ 0) happens before the store and is not part of the store's code. -/
structure Account where
  name : String
  description : Option String
  balance : Rat
  active : Bool
deriving DecidableEq, Repr

/-- `AccountCreate` subclasses `Account` adding nothing. -/
abbrev AccountCreate := Account

/-- The `AccountUpdate` pydantic patch model: each field is optional, and
`model_dump(exclude_unset=True)` drops the fields the caller did not set.
`none` here means "not set" (excluded from the dump); for `description` a
set value is itself optional, keeping "explicitly cleared" distinguishable
from "not provided". -/
structure AccountUpdate where
  name : Option String
  description : Option (Option String)
  balance : Option Rat
  active : Option Bool
deriving DecidableEq, Repr

/-- The patch with no field set: `model_dump(exclude_unset=True)` is `{}`. -/
def AccountUpdate.empty : AccountUpdate :=
  { name := none, description := none, balance := none, active := none }

/-- The `AccountResponse` view (`src/models/account.py`): the stored fields
returned to the caller.  `AccountResponse(**account_data)` is a
field-for-field copy of the stored record (its computed display fields are
derived from these and carry no extra state). -/
structure AccountResponse where
  id : Nat
  name : String
  description : Option String
  balance : Rat
  active : Bool
  created_at : Nat
  updated_at : Nat
deriving DecidableEq, Repr

/-- `AccountResponse(**account_data)`. -/
def AccountResponse.ofData (a : AccountData) : AccountResponse :=
  { id := a.id, name := a.name, description := a.description,
    balance := a.balance, active := a.active,
    created_at := a.created_at, updated_at := a.updated_at }

/-- The state of `InMemoryAccountRepository`: the id-keyed dict
`self._accounts` (as its insertion-ordered value list; every value stored
under key `k` has `id = k`) and the counter `self._next_id`. -/
structure Store where
  accounts : List AccountData
  next_id : Nat
deriving DecidableEq, Repr

/-- `__init__`: empty dict, counter at 1. -/
def Store.init : Store := { accounts := [], next_id := 1 }

/-- `self._accounts.get(account_id)`: dict lookup by key. -/
def findAccount (s : Store) (account_id : Nat) : Option AccountData :=
  s.accounts.find? (·.id == account_id)

/-- `d[k] = v` on an insertion-ordered dict: replace in place when the key
is present, append otherwise. -/
def dictInsert (k : Nat) (v : AccountData) (l : List AccountData) :
    List AccountData :=
  if l.any (·.id == k) then l.map (fun a => if a.id == k then v else a)
  else l ++ [v]

/-- `_get_next_id`: return the counter and advance it by one. -/
def _get_next_id (s : Store) : Nat × Store :=
  let current_id := s.next_id
  (current_id, { s with next_id := s.next_id + 1 })

/-- `create`: assign the next id, set both timestamps to now, store the
record, return the response view. -/
def create (account : AccountCreate) (now : Nat) (s : Store) :
    AccountResponse × Store :=
  let (account_id, s₁) := _get_next_id s
  let account_data : AccountData :=
    { id := account_id, name := account.name,
      description := account.description, balance := account.balance,
      active := account.active, created_at := now, updated_at := now }
  (AccountResponse.ofData account_data,
   { s₁ with accounts := dictInsert account_id account_data s₁.accounts })

/-- `get_by_id`: the record, only if present and active. -/
def get_by_id (account_id : Nat) (s : Store) :
    Option AccountResponse × Store :=
  (match findAccount s account_id with
   | some account_data =>
     if account_data.active then some (AccountResponse.ofData account_data)
     else none
   | none => none, s)

/-- `get_all`: every stored record in insertion order, filtered to the
active ones when `active_only`. -/
def get_all (active_only : Bool) (s : Store) :
    List AccountResponse × Store :=
  let accounts := s.accounts
  let accounts := if active_only then accounts.filter (·.active) else accounts
  (accounts.map AccountResponse.ofData, s)

/-- `get_all_including_deleted`: every stored record, soft-deleted ones
included. -/
def get_all_including_deleted (s : Store) :
    List AccountResponse × Store :=
  (s.accounts.map AccountResponse.ofData, s)

/-- `update`: full replacement.  Requires the id to be present and active;
`existing | account.model_dump(exclude={"display_balance"}) |
{"id": account_id, "updated_at": now}` keeps `created_at` from the existing
record, forces `id`, and takes the four mutable fields from `account`. -/
def update (account_id : Nat) (account : Account) (now : Nat) (s : Store) :
    Option AccountResponse × Store :=
  match findAccount s account_id with
  | none => (none, s)
  | some existing =>
    if existing.active then
      let updated_data : AccountData :=
        { id := account_id, name := account.name,
          description := account.description, balance := account.balance,
          active := account.active, created_at := existing.created_at,
          updated_at := now }
      (some (AccountResponse.ofData updated_data),
       { s with accounts := dictInsert account_id updated_data s.accounts })
    else (none, s)

/-- `partial_update`: overlay only the fields present in the patch dump
(`existing | account.model_dump(exclude_unset=True, …) |
{"updated_at": now}`); absent fields keep their stored value, `id` and
`created_at` are never in the dump. -/
def partial_update (account_id : Nat) (account : AccountUpdate) (now : Nat)
    (s : Store) : Option AccountResponse × Store :=
  match findAccount s account_id with
  | none => (none, s)
  | some existing =>
    if existing.active then
      let updated_data : AccountData :=
        { existing with
          name := account.name.getD existing.name,
          description := account.description.getD existing.description,
          balance := account.balance.getD existing.balance,
          active := account.active.getD existing.active,
          updated_at := now }
      (some (AccountResponse.ofData updated_data),
       { s with accounts := dictInsert account_id updated_data s.accounts })
    else (none, s)

/-- `delete`: soft delete.  If the key is present (active or not), flip
`active` to false, refresh `updated_at`, return true; otherwise false. -/
def delete (account_id : Nat) (now : Nat) (s : Store) : Bool × Store :=
  match findAccount s account_id with
  | some existing =>
    let deleted : AccountData :=
      { existing with active := false, updated_at := now }
    (true, { s with accounts := dictInsert account_id deleted s.accounts })
  | none => (false, s)

/-- `exists`: present and active (`bool(d.get(id) and d[id]["active"])`). -/
def exists' (account_id : Nat) (s : Store) : Bool × Store :=
  ((findAccount s account_id).any (·.active), s)

/-- The errors `RepositoryFactory.create_account_repository` can raise. -/
inductive RepositoryError where
  | notImplementedError (msg : String)
  | valueError (msg : String)
deriving DecidableEq, Repr

deriving instance DecidableEq for Except

/-- Python `str.lower()`, as the backend names use it (ASCII): lower-case
every character.  (Structurally recursive form of
`String.map Char.toLower`, so that it evaluates in proofs.) -/
def pyLower (s : String) : String := ⟨s.data.map Char.toLower⟩

/-- `RepositoryFactory.create_account_repository`
(`src/dependencies/repository.py`): dispatch on `repository_type.lower()`,
trying the match arms in order.  A successful resolution returns a freshly
constructed `InMemoryAccountRepository`, i.e. `Store.init`. -/
def create_account_repository (repository_type : String) :
    Except RepositoryError Store :=
  let t := pyLower repository_type
  if t = "memory" ∨ t = "mem" then
    .ok Store.init
  else if t = "database" ∨ t = "db" ∨ t = "postgres" ∨ t = "postgresql" then
    .error (.notImplementedError
      ("Database repository not yet implemented. " ++
       "For production deployment, implement PostgreSQL repository."))
  else if t = "redis" ∨ t = "cache" then
    .error (.notImplementedError
      ("Redis repository not yet implemented. " ++
       "For caching layer, implement Redis repository."))
  else
    .error (.valueError
      ("Unknown repository type: \x27" ++ t ++
       "\x27. Supported types: [\x27memory\x27, \x27database\x27, \x27redis\x27]"))

/-- One store operation together with the clock instant at which it runs:
the step alphabet of the store's transition system. -/
inductive Op where
  | opCreate (a : AccountCreate) (now : Nat)
  | opUpdate (k : Nat) (a : Account) (now : Nat)
  | opPartialUpdate (k : Nat) (p : AccountUpdate) (now : Nat)
  | opDelete (k : Nat) (now : Nat)
deriving DecidableEq, Repr

/-- The clock instant an operation runs at. -/
def Op.time : Op → Nat
  | .opCreate _ now => now
  | .opUpdate _ _ now => now
  | .opPartialUpdate _ _ now => now
  | .opDelete _ now => now

/-- The state transition of one operation (result discarded). -/
def applyOp (o : Op) (s : Store) : Store :=
  match o with
  | .opCreate a now => (create a now s).2
  | .opUpdate k a now => (update k a now s).2
  | .opPartialUpdate k p now => (partial_update k p now s).2
  | .opDelete k now => (delete k now s).2

/-- Run a sequence of operations from a state. -/
def runOps (ops : List Op) (s : Store) : Store :=
  ops.foldl (fun s o => applyOp o s) s

/-- The times of a trace are non-decreasing, starting no earlier than `t`
(the monotone-clock assumption: `datetime.now` never goes backwards). -/
def chron (t : Nat) : List Op → Prop
  | [] => True
  | o :: rest => t ≤ o.time ∧ chron o.time rest

/-- Run a sequence of create calls, collecting the ids handed out. -/
def createMany (inputs : List (AccountCreate × Nat)) (s : Store) :
    List Nat × Store :=
  match inputs with
  | [] => ([], s)
  | (a, now) :: rest =>
    let r := create a now s
    let rest' := createMany rest r.2
    (r.1.id :: rest'.1, rest'.2)

/-- Well-formedness of a store state, maintained by every operation: the
keys (= stored ids) are strictly increasing along insertion order (so in
particular pairwise distinct, as a dict's keys are) and all lie below the
counter. -/
def Store.wf (s : Store) : Prop :=
  List.Pairwise (· < ·) (s.accounts.map (·.id)) ∧
  ∀ i ∈ s.accounts.map (·.id), i < s.next_id

/-- All timestamps in the store are internally consistent
(`created_at ≤ updated_at`) and no later than the instant `t`. -/
def clockBound (s : Store) (t : Nat) : Prop :=
  ∀ rec ∈ s.accounts, rec.created_at ≤ rec.updated_at ∧ rec.updated_at ≤ t

instance (s : Store) : Decidable (Store.wf s) := by
  unfold Store.wf; infer_instance

instance (s : Store) (t : Nat) : Decidable (clockBound s t) := by
  unfold clockBound; infer_instance

instance (t : Nat) (ops : List Op) : Decidable (chron t ops) := by
  induction ops generalizing t with
  | nil => exact .isTrue trivial
  | cons o rest ih => exact @instDecidableAnd _ _ _ (ih o.time)

/-! ### Helper lemmas about `dictInsert` and `findAccount` -/

theorem mem_dictInsert {x v : AccountData} {k : Nat} {l : List AccountData}
    (hx : x ∈ dictInsert k v l) : x ∈ l ∨ x = v := by
  unfold dictInsert at hx
  split at hx
  · rcases List.mem_map.1 hx with ⟨a, ha, hax⟩
    by_cases h : (a.id == k) = true
    · right; rw [if_pos h] at hax; exact hax.symm
    · left; rw [if_neg h] at hax; exact hax ▸ ha
  · rcases List.mem_append.1 hx with h | h
    · exact .inl h
    · right
      rw [List.mem_singleton] at h
      exact h

theorem any_of_find?_eq_some {p : AccountData → Bool} {l : List AccountData}
    {a : AccountData} (h : l.find? p = some a) : l.any p = true :=
  List.any_eq_true.2 ⟨a, List.mem_of_find?_eq_some h, List.find?_some h⟩

theorem find?_map_replace {v : AccountData} {k j : Nat}
    (l : List AccountData) (hjk : j ≠ k) (hv : v.id = k) :
    (l.map (fun a => if a.id == k then v else a)).find? (·.id == j) =
      l.find? (·.id == j) := by
  induction l with
  | nil => rfl
  | cons a l ih =>
    rw [List.map_cons]
    by_cases hak : (a.id == k) = true
    · rw [if_pos hak]
      have hvj : (v.id == j) = false := by
        rw [hv]
        exact beq_eq_false_iff_ne.2 (Ne.symm hjk)
      have haj : (a.id == j) = false := by
        rw [beq_iff_eq.1 hak]
        exact beq_eq_false_iff_ne.2 (Ne.symm hjk)
      rw [List.find?_cons_of_neg (p := fun x : AccountData => x.id == j) _ (by simp [hvj]),
        List.find?_cons_of_neg (p := fun x : AccountData => x.id == j) _ (by simp [haj]), ih]
    · rw [if_neg hak]
      by_cases haj : (a.id == j) = true
      · rw [List.find?_cons_of_pos (p := fun x : AccountData => x.id == j) _ haj,
          List.find?_cons_of_pos (p := fun x : AccountData => x.id == j) _ haj]
      · rw [List.find?_cons_of_neg (p := fun x : AccountData => x.id == j) _ haj,
          List.find?_cons_of_neg (p := fun x : AccountData => x.id == j) _ haj, ih]

theorem dictInsert_find?_ne {v : AccountData} {k j : Nat}
    (l : List AccountData) (hjk : j ≠ k) (hv : v.id = k) :
    (dictInsert k v l).find? (·.id == j) = l.find? (·.id == j) := by
  unfold dictInsert
  split
  · exact find?_map_replace l hjk hv
  · rw [List.find?_append]
    have hvj : (v.id == j) = false := by
      rw [hv]
      exact beq_eq_false_iff_ne.2 (Ne.symm hjk)
    have h : List.find? (fun x : AccountData => x.id == j) [v] = none := by
      rw [List.find?_cons_of_neg (p := fun x : AccountData => x.id == j) _
        (by simp [hvj])]
      rfl
    rw [h, Option.or_none]

theorem dictInsert_find?_self {v : AccountData} {k : Nat}
    {l : List AccountData} (hany : l.any (·.id == k) = true) (hv : v.id = k) :
    (dictInsert k v l).find? (·.id == k) = some v := by
  unfold dictInsert
  rw [if_pos hany]
  induction l with
  | nil => exact absurd hany (by simp)
  | cons a l ih =>
    rw [List.map_cons]
    by_cases hak : (a.id == k) = true
    · rw [if_pos hak]
      exact List.find?_cons_of_pos (p := fun x : AccountData => x.id == k) _ (by simp [hv])
    · rw [if_neg hak, List.find?_cons_of_neg (p := fun x : AccountData => x.id == k) _ hak]
      rw [List.any_cons] at hany
      simp only [Bool.not_eq_true] at hak
      rw [hak, Bool.false_or] at hany
      exact ih hany

theorem dictInsert_map_id {v : AccountData} {k : Nat} {l : List AccountData}
    (hany : l.any (·.id == k) = true) (hv : v.id = k) :
    (dictInsert k v l).map (·.id) = l.map (·.id) := by
  unfold dictInsert
  rw [if_pos hany, List.map_map]
  refine List.map_congr_left fun a _ => ?_
  by_cases hak : a.id = k <;> simp [hak, hv]

theorem filter_map_replace {v : AccountData} {k : Nat}
    (l : List AccountData) (hv : v.id = k) :
    (l.map (fun a => if a.id == k then v else a)).filter (·.id != k) =
      l.filter (·.id != k) := by
  induction l with
  | nil => rfl
  | cons a l ih =>
    rw [List.map_cons]
    by_cases hak : (a.id == k) = true
    · rw [if_pos hak]
      have h₂ : (v.id != k) = false := by simp [hv]
      have h₃ : (a.id != k) = false := by simp [beq_iff_eq.1 hak]
      rw [List.filter_cons_of_neg (p := fun x : AccountData => x.id != k) (by simp [h₂]),
        List.filter_cons_of_neg (p := fun x : AccountData => x.id != k) (by simp [h₃]), ih]
    · rw [if_neg hak]
      have hak' : a.id ≠ k := by simpa using hak
      have h₃ : (a.id != k) = true := bne_iff_ne.2 hak'
      rw [List.filter_cons_of_pos (p := fun x : AccountData => x.id != k) h₃,
        List.filter_cons_of_pos (p := fun x : AccountData => x.id != k) h₃, ih]

theorem dictInsert_filter_ne {v : AccountData} {k : Nat}
    (l : List AccountData) (hv : v.id = k) :
    (dictInsert k v l).filter (·.id != k) = l.filter (·.id != k) := by
  unfold dictInsert
  split
  · exact filter_map_replace l hv
  · rw [List.filter_append]
    have h : List.filter (·.id != k) [v] = [] := by
      simp [List.filter_singleton, hv]
    rw [h, List.append_nil]

/-! ### Case equations for the operations -/

/-- The record `update` stores on success. -/
def replacedData (k : Nat) (a : Account) (created now : Nat) : AccountData :=
  { id := k, name := a.name, description := a.description,
    balance := a.balance, active := a.active,
    created_at := created, updated_at := now }

/-- The record `partial_update` stores on success. -/
def mergedData (existing : AccountData) (p : AccountUpdate) (now : Nat) :
    AccountData :=
  { existing with
    name := p.name.getD existing.name,
    description := p.description.getD existing.description,
    balance := p.balance.getD existing.balance,
    active := p.active.getD existing.active,
    updated_at := now }

theorem update_of_none {s : Store} {k : Nat} (a : Account) (now : Nat)
    (h : findAccount s k = none) : update k a now s = (none, s) := by
  unfold update
  rw [h]

theorem update_of_inactive {s : Store} {k : Nat} {rec : AccountData}
    (a : Account) (now : Nat) (h : findAccount s k = some rec)
    (ha : rec.active = false) : update k a now s = (none, s) := by
  unfold update
  rw [h]
  simp [ha]

theorem update_of_active {s : Store} {k : Nat} {rec : AccountData}
    (a : Account) (now : Nat) (h : findAccount s k = some rec)
    (ha : rec.active = true) :
    update k a now s =
      (some (AccountResponse.ofData (replacedData k a rec.created_at now)),
       { s with accounts :=
          dictInsert k (replacedData k a rec.created_at now) s.accounts }) := by
  unfold update
  rw [h]
  simp only [ha, if_true]
  rfl

theorem partial_update_of_none {s : Store} {k : Nat} (p : AccountUpdate)
    (now : Nat) (h : findAccount s k = none) :
    partial_update k p now s = (none, s) := by
  unfold partial_update
  rw [h]

theorem partial_update_of_inactive {s : Store} {k : Nat} {rec : AccountData}
    (p : AccountUpdate) (now : Nat) (h : findAccount s k = some rec)
    (ha : rec.active = false) : partial_update k p now s = (none, s) := by
  unfold partial_update
  rw [h]
  simp [ha]

theorem partial_update_of_active {s : Store} {k : Nat} {rec : AccountData}
    (p : AccountUpdate) (now : Nat) (h : findAccount s k = some rec)
    (ha : rec.active = true) :
    partial_update k p now s =
      (some (AccountResponse.ofData (mergedData rec p now)),
       { s with accounts := dictInsert k (mergedData rec p now) s.accounts }) := by
  unfold partial_update
  rw [h]
  dsimp only
  rw [if_pos ha]
  rfl

theorem delete_of_none {s : Store} {k : Nat} (now : Nat)
    (h : findAccount s k = none) : delete k now s = (false, s) := by
  unfold delete
  rw [h]

/-- The record `delete` stores: soft-deleted, `updated_at` refreshed. -/
def deletedData (rec : AccountData) (now : Nat) : AccountData :=
  { rec with active := false, updated_at := now }

theorem mergedData_id (rec : AccountData) (p : AccountUpdate) (now : Nat) :
    (mergedData rec p now).id = rec.id := rfl

theorem deletedData_id (rec : AccountData) (now : Nat) :
    (deletedData rec now).id = rec.id := rfl

theorem delete_of_some {s : Store} {k : Nat} {rec : AccountData} (now : Nat)
    (h : findAccount s k = some rec) :
    delete k now s =
      (true,
       { s with accounts := dictInsert k (deletedData rec now) s.accounts }) := by
  unfold delete
  rw [h]
  rfl

/-! ### Frame lemmas per operation -/

/-- The stored ids, in insertion order. -/
def idsOf (s : Store) : List Nat := s.accounts.map (·.id)

/-- A record found under key `k` carries id `k` (the store keys records by
their id). -/
theorem findAccount_id {s : Store} {k : Nat} {rec : AccountData}
    (h : findAccount s k = some rec) : rec.id = k := by
  unfold findAccount at h
  have h₂ := List.find?_some h
  exact beq_iff_eq.1 h₂

theorem findAccount_any {s : Store} {k : Nat} {rec : AccountData}
    (h : findAccount s k = some rec) : s.accounts.any (·.id == k) = true :=
  any_of_find?_eq_some h

theorem update_next_id (k : Nat) (a : Account) (now : Nat) (s : Store) :
    (update k a now s).2.next_id = s.next_id := by
  cases h : findAccount s k with
  | none => rw [update_of_none a now h]
  | some rec =>
    cases ha : rec.active with
    | false => rw [update_of_inactive a now h ha]
    | true => rw [update_of_active a now h ha]

theorem partial_update_next_id (k : Nat) (p : AccountUpdate) (now : Nat)
    (s : Store) : (partial_update k p now s).2.next_id = s.next_id := by
  cases h : findAccount s k with
  | none => rw [partial_update_of_none p now h]
  | some rec =>
    cases ha : rec.active with
    | false => rw [partial_update_of_inactive p now h ha]
    | true => rw [partial_update_of_active p now h ha]

theorem delete_next_id (k : Nat) (now : Nat) (s : Store) :
    (delete k now s).2.next_id = s.next_id := by
  cases h : findAccount s k with
  | none => rw [delete_of_none now h]
  | some rec => rw [delete_of_some now h]

theorem findAccount_update_ne (k : Nat) (a : Account) (now : Nat) (s : Store)
    {j : Nat} (hjk : j ≠ k) :
    findAccount (update k a now s).2 j = findAccount s j := by
  cases h : findAccount s k with
  | none => rw [update_of_none a now h]
  | some rec =>
    cases ha : rec.active with
    | false => rw [update_of_inactive a now h ha]
    | true =>
      rw [update_of_active a now h ha]
      exact dictInsert_find?_ne s.accounts hjk rfl

theorem findAccount_partial_update_ne (k : Nat) (p : AccountUpdate)
    (now : Nat) (s : Store) {j : Nat} (hjk : j ≠ k) :
    findAccount (partial_update k p now s).2 j = findAccount s j := by
  cases h : findAccount s k with
  | none => rw [partial_update_of_none p now h]
  | some rec =>
    cases ha : rec.active with
    | false => rw [partial_update_of_inactive p now h ha]
    | true =>
      rw [partial_update_of_active p now h ha]
      exact dictInsert_find?_ne s.accounts hjk
        (by rw [mergedData_id]; exact findAccount_id h)

theorem findAccount_delete_ne (k : Nat) (now : Nat) (s : Store)
    {j : Nat} (hjk : j ≠ k) :
    findAccount (delete k now s).2 j = findAccount s j := by
  cases h : findAccount s k with
  | none => rw [delete_of_none now h]
  | some rec =>
    rw [delete_of_some now h]
    exact dictInsert_find?_ne s.accounts hjk
      (by rw [deletedData_id]; exact findAccount_id h)

theorem findAccount_update_self {s : Store} {k : Nat} {rec : AccountData}
    {a : Account} {now : Nat} (h : findAccount s k = some rec)
    (ha : rec.active = true) :
    findAccount (update k a now s).2 k =
      some (replacedData k a rec.created_at now) := by
  rw [update_of_active a now h ha]
  exact dictInsert_find?_self (findAccount_any h) rfl

theorem findAccount_partial_update_self {s : Store} {k : Nat}
    {rec : AccountData} {p : AccountUpdate} {now : Nat}
    (h : findAccount s k = some rec) (ha : rec.active = true) :
    findAccount (partial_update k p now s).2 k =
      some (mergedData rec p now) := by
  rw [partial_update_of_active p now h ha]
  exact dictInsert_find?_self (findAccount_any h)
    (by rw [mergedData_id]; exact findAccount_id h)

theorem findAccount_delete_self {s : Store} {k : Nat} {rec : AccountData}
    {now : Nat} (h : findAccount s k = some rec) :
    findAccount (delete k now s).2 k = some (deletedData rec now) := by
  rw [delete_of_some now h]
  exact dictInsert_find?_self (findAccount_any h)
    (by rw [deletedData_id]; exact findAccount_id h)

theorem update_ids (k : Nat) (a : Account) (now : Nat) (s : Store) :
    idsOf (update k a now s).2 = idsOf s := by
  cases h : findAccount s k with
  | none => rw [update_of_none a now h]
  | some rec =>
    cases ha : rec.active with
    | false => rw [update_of_inactive a now h ha]
    | true =>
      rw [update_of_active a now h ha]
      exact dictInsert_map_id (findAccount_any h) rfl

theorem partial_update_ids (k : Nat) (p : AccountUpdate) (now : Nat)
    (s : Store) : idsOf (partial_update k p now s).2 = idsOf s := by
  cases h : findAccount s k with
  | none => rw [partial_update_of_none p now h]
  | some rec =>
    cases ha : rec.active with
    | false => rw [partial_update_of_inactive p now h ha]
    | true =>
      rw [partial_update_of_active p now h ha]
      exact dictInsert_map_id (findAccount_any h)
        (by rw [mergedData_id]; exact findAccount_id h)

theorem delete_ids (k : Nat) (now : Nat) (s : Store) :
    idsOf (delete k now s).2 = idsOf s := by
  cases h : findAccount s k with
  | none => rw [delete_of_none now h]
  | some rec =>
    rw [delete_of_some now h]
    exact dictInsert_map_id (findAccount_any h)
      (by rw [deletedData_id]; exact findAccount_id h)


theorem create_id (a : AccountCreate) (now : Nat) (s : Store) :
    (create a now s).1.id = s.next_id := rfl

theorem create_next_id (a : AccountCreate) (now : Nat) (s : Store) :
    (create a now s).2.next_id = s.next_id + 1 := rfl

theorem create_accounts (a : AccountCreate) (now : Nat) (s : Store) :
    (create a now s).2.accounts =
      dictInsert s.next_id (replacedData s.next_id a now now) s.accounts := rfl

/-- Under well-formedness the fresh key is absent, so `d[new_id] = v`
appends. -/
theorem create_ids_of_wf {s : Store} (h : Store.wf s)
    (a : AccountCreate) (now : Nat) :
    idsOf (create a now s).2 = idsOf s ++ [s.next_id] := by
  have hany : s.accounts.any (·.id == s.next_id) = false := by
    rw [Bool.eq_false_iff]
    intro hc
    rcases List.any_eq_true.1 hc with ⟨x, hx, hxk⟩
    have hlt : x.id < s.next_id :=
      h.2 x.id (List.mem_map.2 ⟨x, hx, rfl⟩)
    exact absurd (beq_iff_eq.1 hxk) (Nat.ne_of_lt hlt)
  unfold idsOf
  rw [create_accounts]
  unfold dictInsert
  rw [if_neg (by rw [hany]; exact Bool.false_ne_true), List.map_append]
  rfl

theorem wf_create {s : Store} (h : Store.wf s) (a : AccountCreate)
    (now : Nat) : Store.wf (create a now s).2 := by
  have hids := create_ids_of_wf h a now
  unfold idsOf at hids
  constructor
  · rw [hids, List.pairwise_append]
    refine ⟨h.1, List.pairwise_singleton _ _, fun i hi b hb => ?_⟩
    rw [List.mem_singleton] at hb
    subst hb
    exact h.2 i hi
  · intro i hi
    rw [hids, List.mem_append] at hi
    rw [create_next_id]
    rcases hi with hi | hi
    · exact Nat.lt_succ_of_lt (h.2 i hi)
    · rw [List.mem_singleton] at hi
      subst hi
      exact Nat.lt_succ_self _

theorem wf_of_same_ids {s s' : Store} (h : Store.wf s)
    (hids : idsOf s' = idsOf s) (hn : s'.next_id = s.next_id) :
    Store.wf s' := by
  unfold idsOf at hids
  exact ⟨hids ▸ h.1, fun i hi => hn ▸ h.2 i (hids ▸ hi)⟩

/-- Every operation preserves well-formedness. -/
theorem wf_applyOp {s : Store} (h : Store.wf s) (o : Op) :
    Store.wf (applyOp o s) := by
  cases o with
  | opCreate a now => exact wf_create h a now
  | opUpdate k a now =>
    exact wf_of_same_ids h (update_ids k a now s) (update_next_id k a now s)
  | opPartialUpdate k p now =>
    exact wf_of_same_ids h (partial_update_ids k p now s)
      (partial_update_next_id k p now s)
  | opDelete k now =>
    exact wf_of_same_ids h (delete_ids k now s) (delete_next_id k now s)

theorem wf_runOps {s : Store} (h : Store.wf s) (ops : List Op) :
    Store.wf (runOps ops s) := by
  induction ops generalizing s with
  | nil => exact h
  | cons o rest ih => exact ih (wf_applyOp h o)

/-- The ids a run of creates hands out: the counter values from the
starting state, consecutively. -/
theorem createMany_spec (inputs : List (AccountCreate × Nat)) (s : Store) :
    (createMany inputs s).1 = List.range' s.next_id inputs.length ∧
    (createMany inputs s).2.next_id = s.next_id + inputs.length := by
  induction inputs generalizing s with
  | nil => exact ⟨rfl, rfl⟩
  | cons hd tl ih =>
    obtain ⟨a, t⟩ := hd
    obtain ⟨h₁, h₂⟩ := ih (create a t s).2
    constructor
    · show (create a t s).1.id :: (createMany tl (create a t s).2).1 =
        List.range' s.next_id (tl.length + 1)
      rw [List.range'_succ, create_id, h₁, create_next_id]
    · show (createMany tl (create a t s).2).2.next_id =
        s.next_id + (tl.length + 1)
      rw [h₂, create_next_id]
      omega

/-! ### Concrete sample data, for witnesses and counterexamples -/

/-- A valid creation input named "A". -/
def acctA : Account :=
  { name := "A", description := none, balance := 100, active := true }

/-- A valid creation input named "B". -/
def acctB : Account :=
  { name := "B", description := some "beta", balance := 0, active := true }

/-- A store holding two active records, ids 1 and 2, created at instants 0
and 1. -/
def sampleStore : Store :=
  (createMany [(acctA, 0), (acctB, 1)] Store.init).2

/-- The stored record of id 1 in `sampleStore`. -/
def recA : AccountData :=
  { id := 1, name := "A", description := none, balance := 100,
    active := true, created_at := 0, updated_at := 0 }

/-- `sampleStore` after soft-deleting id 1 at instant 2. -/
def sampleDeleted : Store := (delete 1 2 sampleStore).2

/-! ### The claims -/

/-- C1: on a fresh store every sequence of N creates returns exactly the
ids 1, 2, ..., N in call order with no duplicates, and leaves the counter
at N + 1; every create advances the counter by exactly one; delete leaves
the counter unchanged; and on any well-formed store the id returned by a
create differs from the id of every stored record — soft-deleted records
stay stored, so an id is never reused even after deletion. -/
theorem claim_C1_ids_sequential_never_reused :
    (∀ inputs : List (AccountCreate × Nat),
      (createMany inputs Store.init).1 = List.range' 1 inputs.length ∧
      (createMany inputs Store.init).1.Nodup ∧
      (createMany inputs Store.init).2.next_id = 1 + inputs.length) ∧
    (∀ (a : AccountCreate) (now : Nat) (s : Store),
      (create a now s).2.next_id = s.next_id + 1) ∧
    (∀ (k now : Nat) (s : Store), (delete k now s).2.next_id = s.next_id) ∧
    (∀ (a : AccountCreate) (now : Nat) (s : Store), Store.wf s →
      ∀ rec ∈ s.accounts, (create a now s).1.id ≠ rec.id) := by
  refine ⟨fun inputs => ?_, fun a now s => create_next_id a now s,
    fun k now s => delete_next_id k now s, fun a now s hwf rec hrec => ?_⟩
  · obtain ⟨h₁, h₂⟩ := createMany_spec inputs Store.init
    exact ⟨h₁, h₁ ▸ List.nodup_range' 1 inputs.length, h₂⟩
  · rw [create_id]
    have hlt := hwf.2 rec.id (List.mem_map.2 ⟨rec, hrec, rfl⟩)
    omega

/-- C1, witnessed: on the concrete two-record store (which is well-formed
and holds the record `recA` with id 1), a create hands out an id different
from 1. -/
theorem claim_C1_witness : (create acctA 5 sampleStore).1.id ≠ recA.id :=
  claim_C1_ids_sequential_never_reused.2.2.2 acctA 5 sampleStore
    (by decide) recA (by decide)

/-- The stored record of id 2 in `sampleStore`. -/
def recB : AccountData :=
  { id := 2, name := "B", description := some "beta", balance := 0,
    active := true, created_at := 1, updated_at := 1 }

/-- The stored record of id 1 in `sampleDeleted`. -/
def recADeleted : AccountData :=
  { id := 1, name := "A", description := none, balance := 100,
    active := false, created_at := 0, updated_at := 2 }

/-- C2: for every store state and id, `get_by_id` returns a record exactly
when a record with that id is stored with `active = true` (and then returns
that record's view), `exists` returns true under exactly the same
condition, and a soft-deleted id and a never-created id both yield
none/false — indistinguishable to the caller. -/
theorem claim_C2_visibility :
    ∀ (s : Store) (k : Nat),
      ((get_by_id k s).1.isSome = true ↔
        ∃ rec, findAccount s k = some rec ∧ rec.active = true) ∧
      ((exists' k s).1 = true ↔
        ∃ rec, findAccount s k = some rec ∧ rec.active = true) ∧
      (∀ rec, findAccount s k = some rec → rec.active = true →
        (get_by_id k s).1 = some (AccountResponse.ofData rec)) ∧
      (∀ rec, findAccount s k = some rec → rec.active = false →
        (get_by_id k s).1 = none ∧ (exists' k s).1 = false) ∧
      (findAccount s k = none →
        (get_by_id k s).1 = none ∧ (exists' k s).1 = false) := by
  intro s k
  unfold get_by_id exists'
  cases h : findAccount s k with
  | none => simp
  | some rec =>
    cases ha : rec.active with
    | false => simp [ha]
    | true => simp [ha]

/-- C2, witnessed: in the concrete store where id 1 was soft-deleted, the
stored record of id 1 is inactive, and `get_by_id`/`exists` report "not
found"/false for it. -/
theorem claim_C2_witness :
    (get_by_id 1 sampleDeleted).1 = none ∧
    (exists' 1 sampleDeleted).1 = false :=
  (claim_C2_visibility sampleDeleted 1).2.2.2.1 recADeleted
    (by decide) (by decide)

/-- C3: `update` and `partial_update` return "not found" and leave the
state unchanged whenever the id is absent or the stored record is inactive
(no resurrection); on an active record, `update` stores and returns the
record with the original id and `created_at`, `updated_at := now`, and
name/description/balance/active taken wholesale from the replacement,
while `partial_update` stores and returns a record keeping the original id
and `created_at` with `updated_at := now`. -/
theorem claim_C3_update_preconditions_and_effect :
    ∀ (s : Store) (k : Nat) (a : Account) (p : AccountUpdate) (now : Nat),
      (findAccount s k = none →
        update k a now s = (none, s) ∧
        partial_update k p now s = (none, s)) ∧
      (∀ rec, findAccount s k = some rec → rec.active = false →
        update k a now s = (none, s) ∧
        partial_update k p now s = (none, s)) ∧
      (∀ rec, findAccount s k = some rec → rec.active = true →
        (update k a now s).1 = some
          { id := k, name := a.name, description := a.description,
            balance := a.balance, active := a.active,
            created_at := rec.created_at, updated_at := now } ∧
        findAccount (update k a now s).2 k = some
          { id := k, name := a.name, description := a.description,
            balance := a.balance, active := a.active,
            created_at := rec.created_at, updated_at := now } ∧
        (∃ r, (partial_update k p now s).1 = some r ∧
          r.id = k ∧ r.created_at = rec.created_at ∧ r.updated_at = now ∧
          findAccount (partial_update k p now s).2 k = some
            { id := r.id, name := r.name, description := r.description,
              balance := r.balance, active := r.active,
              created_at := r.created_at, updated_at := r.updated_at })) := by
  intro s k a p now
  refine ⟨fun h => ⟨update_of_none a now h, partial_update_of_none p now h⟩,
    fun rec h ha => ⟨update_of_inactive a now h ha,
      partial_update_of_inactive p now h ha⟩,
    fun rec h ha => ⟨?_, ?_, ?_⟩⟩
  · rw [update_of_active a now h ha]
    rfl
  · rw [findAccount_update_self h ha]
    rfl
  · refine ⟨AccountResponse.ofData (mergedData rec p now), ?_, ?_, rfl, rfl, ?_⟩
    · rw [partial_update_of_active p now h ha]
    · show (mergedData rec p now).id = k
      rw [mergedData_id]
      exact findAccount_id h
    · rw [findAccount_partial_update_self h ha]
      rfl

/-- C3, witnessed: updating the soft-deleted id 1 of the concrete store
fails with "not found" and leaves the store untouched. -/
theorem claim_C3_witness :
    update 1 acctB 5 sampleDeleted = (none, sampleDeleted) ∧
    partial_update 1 AccountUpdate.empty 5 sampleDeleted =
      (none, sampleDeleted) :=
  (claim_C3_update_preconditions_and_effect sampleDeleted 1 acctB
    AccountUpdate.empty 5).2.1 recADeleted (by decide) (by decide)

theorem findAccount_isSome_any {s : Store} {k : Nat}
    (h : (findAccount s k).isSome = true) :
    s.accounts.any (·.id == k) = true := by
  unfold findAccount at h
  rcases List.find?_isSome.1 h with ⟨x, hx, hxk⟩
  exact List.any_eq_true.2 ⟨x, hx, hxk⟩

/-- No operation ever physically removes a key: a present id stays
present (possibly with its value replaced). -/
theorem findAccount_applyOp_isSome {s : Store} {k : Nat} (o : Op)
    (h : (findAccount s k).isSome = true) :
    (findAccount (applyOp o s) k).isSome = true := by
  cases o with
  | opCreate a now =>
    show (findAccount (create a now s).2 k).isSome = true
    by_cases hk : k = s.next_id
    · subst hk
      unfold findAccount
      rw [create_accounts,
        dictInsert_find?_self (findAccount_isSome_any h) rfl]
      rfl
    · unfold findAccount
      rw [create_accounts, dictInsert_find?_ne s.accounts hk rfl]
      exact h
  | opUpdate j a now =>
    show (findAccount (update j a now s).2 k).isSome = true
    by_cases hk : k = j
    · subst hk
      cases h₂ : findAccount s k with
      | none => rw [h₂] at h; exact absurd h (by simp)
      | some rec =>
        cases ha : rec.active with
        | false => rw [update_of_inactive a now h₂ ha]; exact h
        | true => rw [findAccount_update_self h₂ ha]; rfl
    · rw [findAccount_update_ne j a now s hk]
      exact h
  | opPartialUpdate j p now =>
    show (findAccount (partial_update j p now s).2 k).isSome = true
    by_cases hk : k = j
    · subst hk
      cases h₂ : findAccount s k with
      | none => rw [h₂] at h; exact absurd h (by simp)
      | some rec =>
        cases ha : rec.active with
        | false => rw [partial_update_of_inactive p now h₂ ha]; exact h
        | true => rw [findAccount_partial_update_self h₂ ha]; rfl
    · rw [findAccount_partial_update_ne j p now s hk]
      exact h
  | opDelete j now =>
    show (findAccount (delete j now s).2 k).isSome = true
    by_cases hk : k = j
    · subst hk
      cases h₂ : findAccount s k with
      | none => rw [h₂] at h; exact absurd h (by simp)
      | some rec => rw [findAccount_delete_self h₂]; rfl
    · rw [findAccount_delete_ne j now s hk]
      exact h

/-- C4: `delete` returns true exactly when a record with that id is stored
(records are never physically removed, so "stored" is "was ever created"),
regardless of the record's current `active` state; it then stores the
record with `active = false` and `updated_at` refreshed; deleting twice in
a row returns true both times and leaves the record inactive with
`updated_at` bumped again. -/
theorem claim_C4_delete_semantics :
    ∀ (s : Store) (k now : Nat),
      ((delete k now s).1 = true ↔ (findAccount s k).isSome = true) ∧
      (∀ rec, findAccount s k = some rec →
        findAccount (delete k now s).2 k =
          some { rec with active := false, updated_at := now }) ∧
      (∀ rec, findAccount s k = some rec → ∀ m : Nat,
        (delete k now s).1 = true ∧
        (delete k m (delete k now s).2).1 = true ∧
        findAccount (delete k m (delete k now s).2).2 k =
          some { rec with active := false, updated_at := m }) ∧
      (∀ o : Op, (findAccount s k).isSome = true →
        (findAccount (applyOp o s) k).isSome = true) := by
  intro s k now
  refine ⟨?_, fun rec h => findAccount_delete_self h,
    fun rec h m => ?_, fun o h => findAccount_applyOp_isSome o h⟩
  · cases h : findAccount s k with
    | none => simp [delete_of_none now h]
    | some rec => simp [delete_of_some now h]
  · have h₁ : findAccount (delete k now s).2 k = some (deletedData rec now) :=
      findAccount_delete_self h
    refine ⟨by rw [delete_of_some now h], by rw [delete_of_some m h₁], ?_⟩
    rw [findAccount_delete_self h₁]
    rfl

/-- C4, witnessed: deleting id 1 of the concrete store twice returns true
both times and leaves the record of id 1 inactive with the second
deletion's timestamp. -/
theorem claim_C4_witness :
    (delete 1 2 sampleStore).1 = true ∧
    (delete 1 3 (delete 1 2 sampleStore).2).1 = true ∧
    findAccount (delete 1 3 (delete 1 2 sampleStore).2).2 1 =
      some { recA with active := false, updated_at := 3 } :=
  (claim_C4_delete_semantics sampleStore 1 2).2.2.1 recA (by decide) 3

/-- A full-replacement input whose `active` field is false. -/
def acctDeact : Account :=
  { name := "A2", description := none, balance := 50, active := false }

/-- C5, refuted as stated: a SUCCESSFUL full update of the active record
id 1 (which the claim says must lead to an ACTIVE record) can carry
`active = false` in the replacement and leaves the record INACTIVE: the
replacement's `active` is copied wholesale, so update is also a
deactivation path. -/
theorem counterexample_C5_update_deactivates :
    (findAccount sampleStore 1).map (·.active) = some true ∧
    (update 1 acctDeact 3 sampleStore).1.map (·.active) = some false ∧
    (findAccount (update 1 acctDeact 3 sampleStore).2 1).map (·.active) =
      some false := by
  decide

/-- C5 (amended): a successful `update` (resp. `partial_update`) takes an
ACTIVE record to a record whose `active` flag equals the replacement's
(resp. the patch's, defaulting to ACTIVE) value — so both can also
deactivate; `delete` takes the record to INACTIVE; and no operation ever
takes a stored INACTIVE record back to ACTIVE (update/partial_update
refuse it, delete keeps it inactive, and on a well-formed store create
never touches an existing id). -/
theorem claim_C5_state_machine_amended :
    (∀ (s : Store) (k : Nat) (a : Account) (now : Nat) (r : AccountResponse),
      (update k a now s).1 = some r →
      r.active = a.active ∧
      (findAccount (update k a now s).2 k).map (·.active) = some a.active) ∧
    (∀ (s : Store) (k : Nat) (p : AccountUpdate) (now : Nat)
      (r : AccountResponse),
      (partial_update k p now s).1 = some r →
      r.active = p.active.getD true ∧
      (findAccount (partial_update k p now s).2 k).map (·.active) =
        some (p.active.getD true)) ∧
    (∀ (s : Store) (k now : Nat) (rec : AccountData),
      findAccount s k = some rec →
      (findAccount (delete k now s).2 k).map (·.active) = some false) ∧
    (∀ (s : Store) (k : Nat) (rec : AccountData),
      findAccount s k = some rec → rec.active = false →
      (∀ (j : Nat) (a : Account) (now : Nat),
        (findAccount (update j a now s).2 k).map (·.active) = some false) ∧
      (∀ (j : Nat) (p : AccountUpdate) (now : Nat),
        (findAccount (partial_update j p now s).2 k).map (·.active) =
          some false) ∧
      (∀ (j now : Nat),
        (findAccount (delete j now s).2 k).map (·.active) = some false) ∧
      (Store.wf s → ∀ (a : AccountCreate) (now : Nat),
        (findAccount (create a now s).2 k).map (·.active) = some false)) := by
  refine ⟨fun s k a now r hr => ?_, fun s k p now r hr => ?_,
    fun s k now rec h => ?_, fun s k rec h hin => ⟨?_, ?_, ?_, ?_⟩⟩
  · cases h : findAccount s k with
    | none => rw [update_of_none a now h] at hr; exact absurd hr (by simp)
    | some rec =>
      cases ha : rec.active with
      | false =>
        rw [update_of_inactive a now h ha] at hr
        exact absurd hr (by simp)
      | true =>
        rw [update_of_active a now h ha] at hr
        obtain rfl : AccountResponse.ofData
            (replacedData k a rec.created_at now) = r := by
          exact Option.some_injective _ hr
        exact ⟨rfl, by rw [findAccount_update_self h ha]; rfl⟩
  · cases h : findAccount s k with
    | none =>
      rw [partial_update_of_none p now h] at hr
      exact absurd hr (by simp)
    | some rec =>
      cases ha : rec.active with
      | false =>
        rw [partial_update_of_inactive p now h ha] at hr
        exact absurd hr (by simp)
      | true =>
        rw [partial_update_of_active p now h ha] at hr
        obtain rfl : AccountResponse.ofData (mergedData rec p now) = r :=
          Option.some_injective _ hr
        constructor
        · show (mergedData rec p now).active = p.active.getD true
          unfold mergedData
          rw [ha]
        · rw [findAccount_partial_update_self h ha]
          show some (mergedData rec p now).active = some (p.active.getD true)
          unfold mergedData
          rw [ha]
  · rw [findAccount_delete_self h]
    rfl
  · intro j a now
    by_cases hjk : k = j
    · subst hjk
      rw [update_of_inactive a now h hin, h]
      simp [hin]
    · rw [findAccount_update_ne j a now s hjk, h]
      simp [hin]
  · intro j p now
    by_cases hjk : k = j
    · subst hjk
      rw [partial_update_of_inactive p now h hin, h]
      simp [hin]
    · rw [findAccount_partial_update_ne j p now s hjk, h]
      simp [hin]
  · intro j now
    by_cases hjk : k = j
    · subst hjk
      rw [findAccount_delete_self h]
      rfl
    · rw [findAccount_delete_ne j now s hjk, h]
      simp [hin]
  · intro hwf a now
    have hne : k ≠ s.next_id := by
      have hlt := hwf.2 k (by
        rw [List.mem_map]
        exact ⟨rec, List.mem_of_find?_eq_some h, findAccount_id h⟩)
      omega
    show (findAccount (create a now s).2 k).map (·.active) = some false
    unfold findAccount
    rw [create_accounts, dictInsert_find?_ne s.accounts hne rfl]
    rw [show s.accounts.find? (·.id == k) = some rec from h]
    simp [hin]

/-- C5, witnessed: after soft-deleting id 1, an update targeting the other
id 2 leaves the record of id 1 INACTIVE. -/
theorem claim_C5_witness :
    (findAccount (update 2 acctA 5 sampleDeleted).2 1).map (·.active) =
      some false :=
  (claim_C5_state_machine_amended.2.2.2 sampleDeleted 1 recADeleted
    (by decide) (by decide)).1 2 acctA 5

/-- C6: `get_all` lists the records in insertion order — all of them for
`active_only = false` (like the administrative
`get_all_including_deleted`), exactly the active ones for
`active_only = true`; updates, partial updates and deletes never change
the key order; a create appends its key at the end (on a well-formed
store); and along every run from the fresh store the listed keys are
strictly increasing, i.e. insertion order is creation order. -/
theorem claim_C6_get_all_order :
    (∀ s : Store,
      (get_all false s).1 = s.accounts.map AccountResponse.ofData ∧
      (get_all true s).1 =
        (s.accounts.filter (·.active)).map AccountResponse.ofData ∧
      (get_all_including_deleted s).1 =
        s.accounts.map AccountResponse.ofData) ∧
    (∀ (s : Store) (k : Nat) (a : Account) (p : AccountUpdate) (now : Nat),
      idsOf (update k a now s).2 = idsOf s ∧
      idsOf (partial_update k p now s).2 = idsOf s ∧
      idsOf (delete k now s).2 = idsOf s) ∧
    (∀ (s : Store) (a : AccountCreate) (now : Nat), Store.wf s →
      idsOf (create a now s).2 = idsOf s ++ [s.next_id]) ∧
    (∀ ops : List Op,
      List.Pairwise (· < ·) (idsOf (runOps ops Store.init))) := by
  refine ⟨fun s => ⟨rfl, rfl, rfl⟩,
    fun s k a p now => ⟨update_ids k a now s, partial_update_ids k p now s,
      delete_ids k now s⟩,
    fun s a now hwf => create_ids_of_wf hwf a now,
    fun ops => ?_⟩
  exact (wf_runOps (by decide) ops).1

/-- C6, witnessed: creating a third record on the concrete two-record
store appends its id 3 after ids 1 and 2. -/
theorem claim_C6_witness :
    idsOf (create acctA 5 sampleStore).2 = idsOf sampleStore ++ [3] :=
  claim_C6_get_all_order.2.2.1 sampleStore acctA 5 (by decide)

/-- C7: on an active record, `partial_update` with the empty patch
succeeds, stores a record agreeing with the old one on every field except
`updated_at` (id, name, description, balance, active, created_at all
identical), and — the clock having advanced strictly — strictly increases
`updated_at`. -/
theorem claim_C7_empty_patch :
    ∀ (s : Store) (k now : Nat) (rec : AccountData),
      findAccount s k = some rec → rec.active = true →
      rec.updated_at < now →
      (partial_update k AccountUpdate.empty now s).1 =
        some (AccountResponse.ofData { rec with updated_at := now }) ∧
      (∀ rec₂,
        findAccount (partial_update k AccountUpdate.empty now s).2 k =
          some rec₂ →
        rec₂.id = rec.id ∧ rec₂.name = rec.name ∧
        rec₂.description = rec.description ∧ rec₂.balance = rec.balance ∧
        rec₂.active = rec.active ∧ rec₂.created_at = rec.created_at ∧
        rec.updated_at < rec₂.updated_at) := by
  intro s k now rec h ha hlt
  have hmerge : mergedData rec AccountUpdate.empty now =
      { rec with updated_at := now } := rfl
  constructor
  · rw [partial_update_of_active AccountUpdate.empty now h ha, hmerge]
  · intro rec₂ h₂
    rw [findAccount_partial_update_self h ha, hmerge] at h₂
    obtain rfl : ({ rec with updated_at := now } : AccountData) = rec₂ :=
      Option.some_injective _ h₂
    exact ⟨rfl, rfl, rfl, rfl, rfl, rfl, hlt⟩

/-- C7, witnessed: the empty patch applied to the active record id 2 at
instant 7 returns the record unchanged except for `updated_at = 7`. -/
theorem claim_C7_witness :
    (partial_update 2 AccountUpdate.empty 7 sampleStore).1 =
      some (AccountResponse.ofData { recB with updated_at := 7 }) :=
  (claim_C7_empty_patch sampleStore 2 7 recB (by decide) (by decide)
    (by decide)).1

theorem clockBound_mono {s : Store} {t t₂ : Nat} (h : clockBound s t)
    (ht : t ≤ t₂) : clockBound s t₂ :=
  fun rec hrec => ⟨(h rec hrec).1, Nat.le_trans (h rec hrec).2 ht⟩

/-- One step preserves the timestamp bound: every stored record keeps
`created_at ≤ updated_at`, and no timestamp exceeds the step's instant. -/
theorem clockBound_applyOp {s : Store} {t : Nat} (o : Op)
    (h : clockBound s t) (ht : t ≤ o.time) :
    clockBound (applyOp o s) o.time := by
  have hold : ∀ rec ∈ s.accounts,
      rec.created_at ≤ rec.updated_at ∧ rec.updated_at ≤ o.time :=
    clockBound_mono h ht
  cases o with
  | opCreate a now =>
    intro x hx
    rw [show applyOp (.opCreate a now) s = (create a now s).2 from rfl,
      create_accounts] at hx
    rcases mem_dictInsert hx with hx | hx
    · exact hold x hx
    · subst hx
      exact ⟨Nat.le_refl _, Nat.le_refl _⟩
  | opUpdate k a now =>
    intro x hx
    show x.created_at ≤ x.updated_at ∧ x.updated_at ≤ now
    cases h₂ : findAccount s k with
    | none =>
      rw [show applyOp (.opUpdate k a now) s = (update k a now s).2 from rfl,
        update_of_none a now h₂] at hx
      exact hold x hx
    | some rec =>
      cases ha : rec.active with
      | false =>
        rw [show applyOp (.opUpdate k a now) s = (update k a now s).2
            from rfl, update_of_inactive a now h₂ ha] at hx
        exact hold x hx
      | true =>
        rw [show applyOp (.opUpdate k a now) s = (update k a now s).2
            from rfl, update_of_active a now h₂ ha] at hx
        rcases mem_dictInsert hx with hx | hx
        · exact hold x hx
        · subst hx
          have hrec := hold rec (List.mem_of_find?_eq_some h₂)
          exact ⟨Nat.le_trans hrec.1 (Nat.le_trans hrec.2 (Nat.le_refl _)),
            Nat.le_refl _⟩
  | opPartialUpdate k p now =>
    intro x hx
    show x.created_at ≤ x.updated_at ∧ x.updated_at ≤ now
    cases h₂ : findAccount s k with
    | none =>
      rw [show applyOp (.opPartialUpdate k p now) s =
          (partial_update k p now s).2 from rfl,
        partial_update_of_none p now h₂] at hx
      exact hold x hx
    | some rec =>
      cases ha : rec.active with
      | false =>
        rw [show applyOp (.opPartialUpdate k p now) s =
            (partial_update k p now s).2 from rfl,
          partial_update_of_inactive p now h₂ ha] at hx
        exact hold x hx
      | true =>
        rw [show applyOp (.opPartialUpdate k p now) s =
            (partial_update k p now s).2 from rfl,
          partial_update_of_active p now h₂ ha] at hx
        rcases mem_dictInsert hx with hx | hx
        · exact hold x hx
        · subst hx
          have hrec := hold rec (List.mem_of_find?_eq_some h₂)
          exact ⟨Nat.le_trans hrec.1 hrec.2, Nat.le_refl _⟩
  | opDelete k now =>
    intro x hx
    show x.created_at ≤ x.updated_at ∧ x.updated_at ≤ now
    cases h₂ : findAccount s k with
    | none =>
      rw [show applyOp (.opDelete k now) s = (delete k now s).2 from rfl,
        delete_of_none now h₂] at hx
      exact hold x hx
    | some rec =>
      rw [show applyOp (.opDelete k now) s = (delete k now s).2 from rfl,
        delete_of_some now h₂] at hx
      rcases mem_dictInsert hx with hx | hx
      · exact hold x hx
      · subst hx
        have hrec := hold rec (List.mem_of_find?_eq_some h₂)
        exact ⟨Nat.le_trans hrec.1 hrec.2, Nat.le_refl _⟩

theorem clockBound_runOps {s : Store} {t : Nat} {ops : List Op}
    (h : clockBound s t) (hc : chron t ops) :
    ∀ rec ∈ (runOps ops s).accounts,
      rec.created_at ≤ rec.updated_at := by
  induction ops generalizing s t with
  | nil => exact fun rec hrec => (h rec hrec).1
  | cons o rest ih =>
    exact ih (clockBound_applyOp o h hc.1) hc.2

/-- C8: `create` stamps `created_at = updated_at = now`; every operation,
run at an instant no earlier than all existing timestamps, keeps every
stored record at `created_at ≤ updated_at` with no timestamp in the
future; along every chronological run from the fresh store every stored
record satisfies `created_at ≤ updated_at`; and
update/partial_update/delete never change the target's `created_at`,
moving only `updated_at` (to the operation's instant). -/
theorem claim_C8_timestamp_invariants :
    (∀ (a : AccountCreate) (now : Nat) (s : Store),
      (create a now s).1.created_at = now ∧
      (create a now s).1.updated_at = now) ∧
    (∀ (o : Op) (s : Store) (t : Nat), clockBound s t → t ≤ o.time →
      clockBound (applyOp o s) o.time) ∧
    (∀ ops : List Op, chron 0 ops →
      ∀ rec ∈ (runOps ops Store.init).accounts,
        rec.created_at ≤ rec.updated_at) ∧
    (∀ (s : Store) (k : Nat) (a : Account) (p : AccountUpdate) (now : Nat)
      (rec : AccountData), findAccount s k = some rec →
      (∀ rec₂, findAccount (update k a now s).2 k = some rec₂ →
        rec₂.created_at = rec.created_at ∧ rec₂.updated_at ∈ [rec.updated_at, now]) ∧
      (∀ rec₂, findAccount (partial_update k p now s).2 k = some rec₂ →
        rec₂.created_at = rec.created_at ∧ rec₂.updated_at ∈ [rec.updated_at, now]) ∧
      (∀ rec₂, findAccount (delete k now s).2 k = some rec₂ →
        rec₂.created_at = rec.created_at ∧ rec₂.updated_at = now)) := by
  refine ⟨fun a now s => ⟨rfl, rfl⟩,
    fun o s t h ht => clockBound_applyOp o h ht,
    fun ops hc => clockBound_runOps (fun rec hrec => absurd hrec (by simp [Store.init])) hc,
    fun s k a p now rec h => ⟨fun rec₂ h₂ => ?_, fun rec₂ h₂ => ?_,
      fun rec₂ h₂ => ?_⟩⟩
  · cases ha : rec.active with
    | false =>
      rw [update_of_inactive a now h ha, h] at h₂
      obtain rfl : rec = rec₂ := Option.some_injective _ h₂
      exact ⟨rfl, by simp⟩
    | true =>
      rw [findAccount_update_self h ha] at h₂
      obtain rfl : replacedData k a rec.created_at now = rec₂ :=
        Option.some_injective _ h₂
      exact ⟨rfl, by simp [replacedData]⟩
  · cases ha : rec.active with
    | false =>
      rw [partial_update_of_inactive p now h ha, h] at h₂
      obtain rfl : rec = rec₂ := Option.some_injective _ h₂
      exact ⟨rfl, by simp⟩
    | true =>
      rw [findAccount_partial_update_self h ha] at h₂
      obtain rfl : mergedData rec p now = rec₂ := Option.some_injective _ h₂
      exact ⟨rfl, by simp [mergedData]⟩
  · rw [findAccount_delete_self h] at h₂
    obtain rfl : deletedData rec now = rec₂ := Option.some_injective _ h₂
    exact ⟨rfl, rfl⟩

/-- C8, witnessed: along the concrete chronological run create, create,
delete (instants 0, 1, 2) every stored record satisfies
`created_at ≤ updated_at`; deleting id 1 keeps its `created_at` and sets
`updated_at` to the deletion instant. -/
theorem claim_C8_witness :
    (∀ rec ∈ (runOps [.opCreate acctA 0, .opCreate acctB 1, .opDelete 1 2]
      Store.init).accounts, rec.created_at ≤ rec.updated_at) ∧
    (∀ rec₂, findAccount (delete 1 2 sampleStore).2 1 = some rec₂ →
      rec₂.created_at = recA.created_at ∧ rec₂.updated_at = 2) :=
  ⟨claim_C8_timestamp_invariants.2.2.1
      [.opCreate acctA 0, .opCreate acctB 1, .opDelete 1 2] (by decide),
   (claim_C8_timestamp_invariants.2.2.2 sampleStore 1 acctA
      AccountUpdate.empty 2 recA (by decide)).2.2⟩

/-- C9: backend resolution is case-insensitive — "memory"/"mem" yield a
fresh in-memory store; "database"/"db"/"postgres"/"postgresql" and
"redis"/"cache" fail with a NotImplementedError; every other name fails
with a ValueError whose message names the rejected value (as matched,
i.e. lowercased) and the advertised list of backend types. -/
theorem claim_C9_factory_resolution :
    (∀ s : String, (pyLower s = "memory" ∨ pyLower s = "mem") →
      create_account_repository s = .ok Store.init) ∧
    (∀ s : String,
      (pyLower s = "database" ∨ pyLower s = "db" ∨
       pyLower s = "postgres" ∨ pyLower s = "postgresql" ∨
       pyLower s = "redis" ∨ pyLower s = "cache") →
      ∃ msg, create_account_repository s =
        .error (.notImplementedError msg)) ∧
    (∀ s : String,
      pyLower s ∉ (["memory", "mem", "database", "db", "postgres",
        "postgresql", "redis", "cache"] : List String) →
      create_account_repository s = .error (.valueError
        ("Unknown repository type: \x27" ++ pyLower s ++
         "\x27. Supported types: [\x27memory\x27, \x27database\x27, \x27redis\x27]"))) := by
  refine ⟨fun s h => ?_, fun s h => ?_, fun s h => ?_⟩
  · unfold create_account_repository
    rcases h with h | h <;> simp [h]
  · unfold create_account_repository
    rcases h with h | h | h | h | h | h <;> simp [h]
  · simp only [List.mem_cons, List.mem_singleton] at h
    push_neg at h
    obtain ⟨h₁, h₂, h₃, h₄, h₅, h₆, h₇, h₈⟩ := h
    unfold create_account_repository
    rw [if_neg (by simp [h₁, h₂]), if_neg (by simp [h₃, h₄, h₅, h₆]),
      if_neg (by simp [h₇, h₈])]

/-- C9, witnessed: "MEM" resolves to the fresh store, "redis" fails as
unimplemented, and "bogus" fails as unknown with the message naming it and
the supported types. -/
theorem claim_C9_witness :
    create_account_repository "MEM" = .ok Store.init ∧
    (∃ msg, create_account_repository "redis" =
      .error (.notImplementedError msg)) ∧
    create_account_repository "bogus" = .error (.valueError
      ("Unknown repository type: \x27bogus\x27. " ++
       "Supported types: [\x27memory\x27, \x27database\x27, \x27redis\x27]")) := by
  refine ⟨claim_C9_factory_resolution.1 "MEM" (.inr (by decide)),
    claim_C9_factory_resolution.2.1 "redis"
      (.inr (.inr (.inr (.inr (.inl (by decide)))))), ?_⟩
  have h := claim_C9_factory_resolution.2.2 "bogus" (by decide)
  have e : pyLower "bogus" = "bogus" := by decide
  rw [e] at h
  exact h

theorem update_filter_ne (k : Nat) (a : Account) (now : Nat) (s : Store) :
    (update k a now s).2.accounts.filter (·.id != k) =
      s.accounts.filter (·.id != k) := by
  cases h : findAccount s k with
  | none => rw [update_of_none a now h]
  | some rec =>
    cases ha : rec.active with
    | false => rw [update_of_inactive a now h ha]
    | true =>
      rw [update_of_active a now h ha]
      exact dictInsert_filter_ne s.accounts rfl

theorem partial_update_filter_ne (k : Nat) (p : AccountUpdate) (now : Nat)
    (s : Store) :
    (partial_update k p now s).2.accounts.filter (·.id != k) =
      s.accounts.filter (·.id != k) := by
  cases h : findAccount s k with
  | none => rw [partial_update_of_none p now h]
  | some rec =>
    cases ha : rec.active with
    | false => rw [partial_update_of_inactive p now h ha]
    | true =>
      rw [partial_update_of_active p now h ha]
      exact dictInsert_filter_ne s.accounts
        (by rw [mergedData_id]; exact findAccount_id h)

theorem delete_filter_ne (k now : Nat) (s : Store) :
    (delete k now s).2.accounts.filter (·.id != k) =
      s.accounts.filter (·.id != k) := by
  cases h : findAccount s k with
  | none => rw [delete_of_none now h]
  | some rec =>
    rw [delete_of_some now h]
    exact dictInsert_filter_ne s.accounts
      (by rw [deletedData_id]; exact findAccount_id h)

/-- C10 (implicit frame property): a mutating operation targeting id `k`
leaves all records with id ≠ k untouched (same records, same relative
order) and never moves the id counter; the read operations return the
store state completely unchanged. -/
theorem claim_C10_frame :
    ∀ (s : Store) (k : Nat) (a : Account) (p : AccountUpdate)
      (now : Nat) (b : Bool),
      ((update k a now s).2.accounts.filter (·.id != k) =
        s.accounts.filter (·.id != k) ∧
       (update k a now s).2.next_id = s.next_id) ∧
      ((partial_update k p now s).2.accounts.filter (·.id != k) =
        s.accounts.filter (·.id != k) ∧
       (partial_update k p now s).2.next_id = s.next_id) ∧
      ((delete k now s).2.accounts.filter (·.id != k) =
        s.accounts.filter (·.id != k) ∧
       (delete k now s).2.next_id = s.next_id) ∧
      (∀ j : Nat, j ≠ k →
        findAccount (update k a now s).2 j = findAccount s j ∧
        findAccount (partial_update k p now s).2 j = findAccount s j ∧
        findAccount (delete k now s).2 j = findAccount s j) ∧
      ((get_by_id k s).2 = s ∧ (get_all b s).2 = s ∧
       (get_all_including_deleted s).2 = s ∧ (exists' k s).2 = s) :=
  fun s k a p now b =>
    ⟨⟨update_filter_ne k a now s, update_next_id k a now s⟩,
     ⟨partial_update_filter_ne k p now s, partial_update_next_id k p now s⟩,
     ⟨delete_filter_ne k now s, delete_next_id k now s⟩,
     fun j hj => ⟨findAccount_update_ne k a now s hj,
       findAccount_partial_update_ne k p now s hj,
       findAccount_delete_ne k now s hj⟩,
     rfl, rfl, rfl, rfl⟩

/-- C10, witnessed: deleting id 1 of the concrete store leaves the record
of id 2 exactly as it was. -/
theorem claim_C10_witness :
    findAccount (delete 1 2 sampleStore).2 2 = findAccount sampleStore 2 :=
  ((claim_C10_frame sampleStore 1 acctDeact AccountUpdate.empty 2
    true).2.2.2.1 2 (by decide)).2.2

end AccountRepo
